import Mathlib

/-
Verification of the circularbuffer repository (package circularbuffer).

The file embeds the Go source of `circularbuffer.go` into Lean:

  * `CircularBuffer` mirrors the struct: cursors `start` and `pos`,
    the backing slice `buffer` (slots hold `Option α`, Go `nil` = `none`),
    the capacity `size`, the channel occupancy `avail`
    (`len(b.avail)`; the channel is created with capacity `size`),
    and `evictRegistered` (whether the `Evict` field is non-nil).
  * Go's `uint` cursors are modelled as `Nat`: every operation keeps them
    below `size`, so no wrap at 2^64 is reachable (the one underflow site,
    `b.size + b.pos - 1` in `Pop`, is only evaluated behind the channel
    receive, which requires `avail > 0`).
  * Runtime panics (the `select` default branch and slice indexing out of
    range) are modelled as `Except.error`; a channel receive that would
    block is the `blocked` outcome.
  * `NBPush` in the Go source returns no value to its caller; its
    observable effects are the state change and the synchronous call of
    the `Evict` callback.  `PushOut.evicted` records the local `evictv`
    of the eviction branch, and `PushOut.callbackArg` records the value
    passed to `b.Evict` (equal to `evicted` exactly when a callback is
    registered, `none` otherwise).
-/

universe u

structure CircularBuffer (α : Type u) where
  start : Nat
  pos : Nat
  buffer : List (Option α)
  size : Nat
  avail : Nat
  evictRegistered : Bool
deriving Repr, DecidableEq

/-- Result of one `NBPush` call: the new state, the `evictv` local of the
eviction branch when that branch ran, and the argument of the synchronous
`b.Evict(evictv)` call when a callback is registered. -/
structure PushOut (α : Type u) where
  st : CircularBuffer α
  evicted : Option (Option α)
  callbackArg : Option (Option α)
deriving Repr, DecidableEq

/-- Outcome of `Get` or `Pop`: the channel receive would block, an internal
panic fired, or the call returned a value (the Go interface value is an
`Option α`, with `nil` as `none`). -/
inductive RecvResult (α : Type u) where
  | blocked
  | panicked (msg : String)
  | ok (st : CircularBuffer α) (v : Option α)
deriving Repr, DecidableEq

/-- `NewCircularBuffer` from the source: no capacity validation, cursors
zero, `size` slots all nil, channel of capacity `size` empty, `Evict` nil. -/
def NewCircularBuffer (α : Type u) (size : Nat) : CircularBuffer α :=
  { start := 0
    pos := 0
    buffer := List.replicate size none
    size := size
    avail := 0
    evictRegistered := false }

/-- Setting the public `Evict` field to a non-nil callback (done by callers
before use, e.g. `b.Evict = func(v interface) ...`). -/
def registerEvict (b : CircularBuffer α) : CircularBuffer α :=
  { b with evictRegistered := true }

/-- `NBPush` from `circularbuffer.go`:
writes `v` at `pos`, advances `pos` mod `size`; on `pos == start` evicts the
slot at `start` (clearing it, advancing `start`, and invoking `Evict` when
registered); otherwise does a non-blocking send on `avail`, whose `default`
branch is the panic "Sending to avail channel must never block".  Slice
indexing out of bounds is the "index out of range" runtime panic. -/
def NBPush (b : CircularBuffer α) (v : α) : Except String (PushOut α) :=
  if _hp : b.pos < b.buffer.length then
    let buf := b.buffer.set b.pos (some v)
    let pos := (b.pos + 1) % b.size
    if pos = b.start then
      if hs : b.start < buf.length then
        let evictv := buf.get ⟨b.start, hs⟩
        .ok { st := { b with
                      buffer := buf.set b.start none
                      pos := pos
                      start := (b.start + 1) % b.size }
              evicted := some evictv
              callbackArg := if b.evictRegistered then some evictv else none }
      else
        .error "index out of range"
    else
      if b.avail < b.size then
        .ok { st := { b with buffer := buf, pos := pos, avail := b.avail + 1 }
              evicted := none
              callbackArg := none }
      else
        .error "Sending to avail channel must never block"
  else
    .error "index out of range"

/-- `Get` from `circularbuffer.go`: receives from `avail` (blocking), then
panics on `start == pos`, else reads the slot at `start` and advances
`start` mod `size`.  The slot is not cleared. -/
def Get (b : CircularBuffer α) : RecvResult α :=
  if b.avail = 0 then
    .blocked
  else
    let b1 : CircularBuffer α := { b with avail := b.avail - 1 }
    if b1.start = b1.pos then
      .panicked "Trying to get from empty buffer"
    else
      if hs : b1.start < b1.buffer.length then
        .ok { b1 with start := (b1.start + 1) % b1.size }
          (b1.buffer.get ⟨b1.start, hs⟩)
      else
        .panicked "index out of range"

/-- `Pop` from `circularbuffer.go`: receives from `avail` (blocking), then
panics on `start == pos`, else moves `pos` back by one mod `size`, reads
the slot at the new `pos` and clears it. -/
def Pop (b : CircularBuffer α) : RecvResult α :=
  if b.avail = 0 then
    .blocked
  else
    let b1 : CircularBuffer α := { b with avail := b.avail - 1 }
    if b1.start = b1.pos then
      .panicked "Cant pop from empty buffer"
    else
      let pos := (b1.size + b1.pos - 1) % b1.size
      if hs : pos < b1.buffer.length then
        .ok { b1 with pos := pos, buffer := b1.buffer.set pos none }
          (b1.buffer.get ⟨pos, hs⟩)
      else
        .panicked "index out of range"

/-- `Empty` from the source: `len(b.avail) == 0`. -/
def CircularBuffer.Empty (b : CircularBuffer α) : Bool :=
  b.avail == 0

/-- `Length` from the source: `len(b.avail)`. -/
def CircularBuffer.Length (b : CircularBuffer α) : Nat :=
  b.avail

/-- Whether an operation ended in a runtime panic. -/
def isError : Except String β → Bool
  | .error _ => true
  | .ok _ => false

/-- State and logs after a sequence of `NBPush` calls: `evictLog` collects
the `evictv` values of the eviction branches in order, `callbackLog` the
values actually handed to the `Evict` callback in order. -/
structure PushAllOut (α : Type u) where
  st : CircularBuffer α
  evictLog : List (Option α)
  callbackLog : List (Option α)
deriving Repr, DecidableEq

/-- Run `NBPush` once per element of `vs`, left to right. -/
def pushAll (b : CircularBuffer α) : List α → Except String (PushAllOut α)
  | [] => .ok { st := b, evictLog := [], callbackLog := [] }
  | v :: vs =>
    match NBPush b v with
    | .error e => .error e
    | .ok p =>
      match pushAll p.st vs with
      | .error e => .error e
      | .ok out => .ok { st := out.st
                         evictLog := p.evicted.toList ++ out.evictLog
                         callbackLog := p.callbackArg.toList ++ out.callbackLog }

/-- Run `Get` `k` times, collecting the returned values in call order;
`none` when some call blocked or panicked. -/
def getN (b : CircularBuffer α) : Nat → Option (CircularBuffer α × List (Option α))
  | 0 => some (b, [])
  | k + 1 =>
    match Get b with
    | .ok b1 v =>
      match getN b1 k with
      | some (b2, vs) => some (b2, v :: vs)
      | none => none
    | _ => none

/-- Run `Pop` `k` times, collecting the returned values in call order;
`none` when some call blocked or panicked. -/
def popN (b : CircularBuffer α) : Nat → Option (CircularBuffer α × List (Option α))
  | 0 => some (b, [])
  | k + 1 =>
    match Pop b with
    | .ok b1 v =>
      match popN b1 k with
      | some (b2, vs) => some (b2, v :: vs)
      | none => none
    | _ => none

/-- A caller-visible operation on the buffer. -/
inductive Op (α : Type u) where
  | push (v : α)
  | get
  | pop
deriving Repr, DecidableEq

/-- Final state of a run together with the operation counts the spec talks
about: pushes performed, removals that succeeded (a `Get`/`Pop` whose
channel receive went through), and evictions. -/
structure RunOut (α : Type u) where
  st : CircularBuffer α
  pushes : Nat
  removals : Nat
  evictions : Nat
deriving Repr, DecidableEq

/-- Run a sequence of operations.  A `Get`/`Pop` whose receive would block
leaves the state unchanged and counts no removal; a runtime panic aborts
the run. -/
def run (b : CircularBuffer α) : List (Op α) → Except String (RunOut α)
  | [] => .ok { st := b, pushes := 0, removals := 0, evictions := 0 }
  | .push v :: ops =>
    match NBPush b v with
    | .error e => .error e
    | .ok p =>
      match run p.st ops with
      | .error e => .error e
      | .ok out => .ok { out with
                         pushes := out.pushes + 1
                         evictions := out.evictions +
                           (if p.evicted.isSome then 1 else 0) }
  | .get :: ops =>
    match Get b with
    | .blocked => run b ops
    | .panicked e => .error e
    | .ok b1 _ =>
      match run b1 ops with
      | .error e => .error e
      | .ok out => .ok { out with removals := out.removals + 1 }
  | .pop :: ops =>
    match Pop b with
    | .blocked => run b ops
    | .panicked e => .error e
    | .ok b1 _ =>
      match run b1 ops with
      | .error e => .error e
      | .ok out => .ok { out with removals := out.removals + 1 }

/-- States reachable from a fresh buffer of capacity `n` by registering a
callback and running operations; a blocked receive or a panic yields no
successor state. -/
inductive ReachableFrom (α : Type u) (n : Nat) : CircularBuffer α → Prop where
  | init : ReachableFrom α n (NewCircularBuffer α n)
  | register {b : CircularBuffer α} :
      ReachableFrom α n b → ReachableFrom α n (registerEvict b)
  | push {b : CircularBuffer α} {v : α} {p : PushOut α} :
      ReachableFrom α n b → NBPush b v = .ok p → ReachableFrom α n p.st
  | get {b b1 : CircularBuffer α} {v : Option α} :
      ReachableFrom α n b → Get b = .ok b1 v → ReachableFrom α n b1
  | pop {b b1 : CircularBuffer α} {v : Option α} :
      ReachableFrom α n b → Pop b = .ok b1 v → ReachableFrom α n b1

/-- The structural invariant of a capacity-`n` buffer: well-formed sizes,
cursors in range, and the channel occupancy determined by the cursors
(`len(avail) == (n + pos - start) % n`, the comment on the `avail` field). -/
structure BufInv (n : Nat) (b : CircularBuffer α) : Prop where
  size_eq : b.size = n
  buffer_len : b.buffer.length = n
  start_lt : b.start < n
  pos_lt : b.pos < n
  avail_eq : b.avail = if b.start ≤ b.pos then b.pos - b.start
             else n + b.pos - b.start

/-- Case analysis of a forward cursor step `(p + 1) % n`. -/
lemma succ_mod_cases (n p : Nat) (hp : p < n) :
    ((p + 1) % n = p + 1 ∧ p + 1 < n) ∨ ((p + 1) % n = 0 ∧ p + 1 = n) := by
  rcases Nat.lt_or_ge (p + 1) n with h | h
  · exact Or.inl ⟨Nat.mod_eq_of_lt h, h⟩
  · have he : p + 1 = n := by omega
    exact Or.inr ⟨by rw [he, Nat.mod_self], he⟩

/-- Case analysis of the backward cursor step `(n + p - 1) % n` of `Pop`. -/
lemma pred_mod_cases (n p : Nat) (hn : 0 < n) (hp : p < n) :
    ((n + p - 1) % n = n - 1 ∧ p = 0) ∨ ((n + p - 1) % n = p - 1 ∧ 0 < p) := by
  rcases Nat.eq_zero_or_pos p with h | h
  · subst h
    exact Or.inl ⟨Nat.mod_eq_of_lt (by omega), rfl⟩
  · have he : n + p - 1 = n + (p - 1) := by omega
    exact Or.inr ⟨by rw [he, Nat.add_mod_left]; exact Nat.mod_eq_of_lt (by omega), h⟩

/-- The live-element count `(n + p - s) % n` without the modulus, for
in-range cursors. -/
lemma live_mod_eq (n s p : Nat) (hs : s < n) (hp : p < n) :
    (n + p - s) % n = if s ≤ p then p - s else n + p - s := by
  split_ifs with h
  · have he : n + p - s = n + (p - s) := by omega
    rw [he, Nat.add_mod_left]
    exact Nat.mod_eq_of_lt (by omega)
  · exact Nat.mod_eq_of_lt (by omega)

/-- The channel never holds more than `n - 1` tokens. -/
lemma BufInv.avail_le {n : Nat} {b : CircularBuffer α} (hb : BufInv n b) :
    b.avail ≤ n - 1 := by
  have hs := hb.start_lt
  have hp := hb.pos_lt
  have ha := hb.avail_eq
  split_ifs at ha <;> omega

/-- The invariant in the form stated by the source comment on `avail`:
`len(avail)` equals `(n + pos - start) % n`. -/
lemma BufInv.avail_mod {n : Nat} {b : CircularBuffer α} (hb : BufInv n b) :
    b.avail = (n + b.pos - b.start) % n := by
  rw [live_mod_eq n b.start b.pos hb.start_lt hb.pos_lt]
  exact hb.avail_eq

/-- On an invariant-satisfying state, `NBPush` never panics: it returns a
state satisfying the invariant again, keeps the callback registration, and
either evicts (channel occupancy unchanged) or increments the channel
occupancy by one. -/
lemma NBPush_ok_of_inv {α : Type u} {n : Nat} (hn : 0 < n) {b : CircularBuffer α}
    (hb : BufInv n b) (v : α) :
    ∃ q : PushOut α, NBPush b v = .ok q ∧ BufInv n q.st ∧
      q.st.evictRegistered = b.evictRegistered ∧
      q.callbackArg = (if b.evictRegistered then q.evicted else none) ∧
      ((q.evicted.isSome = true ∧ q.st.avail = b.avail) ∨
        (q.evicted = none ∧ q.st.avail = b.avail + 1)) := by
  obtain ⟨s, p, L, sz, a, reg⟩ := b
  obtain ⟨hsz, hlen, hs, hp, ha⟩ := hb
  simp only at hsz hlen hs hp ha
  subst sz
  unfold NBPush
  simp only
  rw [dif_pos (by omega : p < L.length)]
  by_cases hcond : (p + 1) % n = s
  · rw [if_pos hcond, dif_pos (by simp only [List.length_set]; omega : s < (L.set p (some v)).length)]
    refine ⟨_, rfl, ?_, rfl, rfl, Or.inl ⟨rfl, rfl⟩⟩
    refine ⟨rfl, by simp [List.length_set]; omega, Nat.mod_lt _ hn, ?_, ?_⟩
    · simp only
      omega
    · simp only
      rcases succ_mod_cases n p hp with ⟨h1, h2⟩ | ⟨h1, h2⟩ <;>
        rcases succ_mod_cases n s hs with ⟨h3, h4⟩ | ⟨h3, h4⟩ <;>
        rw [h1] at hcond <;> rw [h3] <;> split_ifs at ha ⊢ <;> omega
  · rw [if_neg hcond]
    have halt : a < n := by split_ifs at ha <;> omega
    rw [if_pos halt]
    refine ⟨_, rfl, ?_, rfl, by cases reg <;> rfl, Or.inr ⟨rfl, rfl⟩⟩
    refine ⟨rfl, by simp [List.length_set]; omega, by simp only; omega,
      Nat.mod_lt _ hn, ?_⟩
    simp only
    rcases succ_mod_cases n p hp with ⟨h1, h2⟩ | ⟨h1, h2⟩ <;>
      rw [h1] at hcond ⊢ <;> split_ifs at ha ⊢ <;> omega

/-- `Get` on an invariant-satisfying state with an empty channel blocks. -/
lemma Get_blocked_of_avail_zero {b : CircularBuffer α} (h0 : b.avail = 0) :
    Get b = .blocked := by
  unfold Get
  rw [if_pos h0]

/-- `Pop` on an invariant-satisfying state with an empty channel blocks. -/
lemma Pop_blocked_of_avail_zero {b : CircularBuffer α} (h0 : b.avail = 0) :
    Pop b = .blocked := by
  unfold Pop
  rw [if_pos h0]

/-- After a successful channel receive, `Get` never hits a panic: it
returns the slot at `start`, advances `start`, decrements the occupancy,
and leaves `pos`, `size`, registration and the whole backing array
untouched.  The invariant is preserved. -/
lemma Get_ok_of_inv {α : Type u} {n : Nat} (hn : 0 < n) {b : CircularBuffer α}
    (hb : BufInv n b) (h0 : b.avail ≠ 0) :
    ∃ b1 v, Get b = .ok b1 v ∧ BufInv n b1 ∧
      b1.avail = b.avail - 1 ∧
      b1.start = (b.start + 1) % n ∧
      b1.pos = b.pos ∧ b1.size = b.size ∧
      b1.evictRegistered = b.evictRegistered ∧
      b1.buffer = b.buffer ∧
      (∃ hlt : b.start < b.buffer.length, v = b.buffer.get ⟨b.start, hlt⟩) := by
  obtain ⟨s, p, L, sz, a, reg⟩ := b
  obtain ⟨hsz, hlen, hs, hp, ha⟩ := hb
  simp only at hsz hlen hs hp ha h0
  subst sz
  have hne : s ≠ p := by split_ifs at ha <;> omega
  unfold Get
  simp only
  rw [if_neg h0, if_neg hne, dif_pos (by omega : s < L.length)]
  refine ⟨_, _, rfl, ?_, rfl, rfl, rfl, rfl, rfl, rfl, ⟨by omega, rfl⟩⟩
  refine ⟨rfl, hlen, Nat.mod_lt _ hn, hp, ?_⟩
  simp only
  rcases succ_mod_cases n s hs with ⟨h1, h2⟩ | ⟨h1, h2⟩ <;>
    rw [h1] <;> split_ifs at ha ⊢ <;> omega

/-- After a successful channel receive, `Pop` never hits a panic: it moves
`pos` back by one, returns that slot and clears it, decrements the
occupancy, and leaves `start`, `size` and registration untouched.  The
invariant is preserved. -/
lemma Pop_ok_of_inv {α : Type u} {n : Nat} (hn : 0 < n) {b : CircularBuffer α}
    (hb : BufInv n b) (h0 : b.avail ≠ 0) :
    ∃ b1 v, Pop b = .ok b1 v ∧ BufInv n b1 ∧
      b1.avail = b.avail - 1 ∧
      b1.start = b.start ∧
      b1.pos = (n + b.pos - 1) % n ∧ b1.size = b.size ∧
      b1.evictRegistered = b.evictRegistered ∧
      (∃ hlt : (n + b.pos - 1) % n < b.buffer.length,
        v = b.buffer.get ⟨(n + b.pos - 1) % n, hlt⟩ ∧
        b1.buffer = b.buffer.set ((n + b.pos - 1) % n) none) := by
  obtain ⟨s, p, L, sz, a, reg⟩ := b
  obtain ⟨hsz, hlen, hs, hp, ha⟩ := hb
  simp only at hsz hlen hs hp ha h0
  subst sz
  have hne : s ≠ p := by split_ifs at ha <;> omega
  have hplt : (n + p - 1) % n < n := Nat.mod_lt _ hn
  unfold Pop
  simp only
  rw [if_neg h0, if_neg hne, dif_pos (by omega : (n + p - 1) % n < L.length)]
  refine ⟨_, _, rfl, ?_, rfl, rfl, rfl, rfl, rfl, ⟨by omega, rfl, rfl⟩⟩
  refine ⟨rfl, by simp [List.length_set]; omega, hs, hplt, ?_⟩
  simp only
  rcases pred_mod_cases n p hn hp with ⟨h1, h2⟩ | ⟨h1, h2⟩ <;>
    rw [h1] <;> split_ifs at ha ⊢ <;> omega

/-- The invariant holds for a fresh buffer of positive capacity. -/
lemma BufInv_new (α : Type u) (n : Nat) (hn : 0 < n) :
    BufInv n (NewCircularBuffer α n) :=
  ⟨rfl, List.length_replicate n none, hn, hn, rfl⟩

/-- Registering the callback does not touch cursors, storage or channel. -/
lemma BufInv_registerEvict {n : Nat} {b : CircularBuffer α} (hb : BufInv n b) :
    BufInv n (registerEvict b) :=
  ⟨hb.size_eq, hb.buffer_len, hb.start_lt, hb.pos_lt, hb.avail_eq⟩

/-- Every reachable state of a capacity-`n > 0` buffer satisfies the
structural invariant. -/
theorem BufInv_of_reachable {α : Type u} {n : Nat} (hn : 0 < n)
    {b : CircularBuffer α} (h : ReachableFrom α n b) : BufInv n b := by
  induction h with
  | init => exact BufInv_new α n hn
  | register _ ih => exact BufInv_registerEvict ih
  | push _ hok ih =>
    rename_i b0 v p _
    obtain ⟨q, heq, hq, _⟩ := NBPush_ok_of_inv hn ih v
    rw [heq] at hok
    injection hok with h2
    exact h2 ▸ hq
  | get _ hok ih =>
    rename_i b0 b1 v _
    by_cases h0 : b0.avail = 0
    · rw [Get_blocked_of_avail_zero h0] at hok
      cases hok
    · obtain ⟨b1', v', heq, hinv, _⟩ := Get_ok_of_inv hn ih h0
      rw [heq] at hok
      injection hok with h2 h3
      exact h2 ▸ hinv
  | pop _ hok ih =>
    rename_i b0 b1 v _
    by_cases h0 : b0.avail = 0
    · rw [Pop_blocked_of_avail_zero h0] at hok
      cases hok
    · obtain ⟨b1', v', heq, hinv, _⟩ := Pop_ok_of_inv hn ih h0
      rw [heq] at hok
      injection hok with h2 h3
      exact h2 ▸ hinv

/-- C3: in every reachable state of a buffer with capacity `n > 0` the
channel occupancy (the readiness counter `len(b.avail)`) equals
`(n + pos - start) % n` and lies in `[0, n-1]`; since `ReachableFrom` is
closed under `NBPush`, `Get` and `Pop`, the invariant is preserved by
every such operation. -/
theorem avail_invariant_reachable {α : Type u} {n : Nat} (hn : 0 < n)
    {b : CircularBuffer α} (h : ReachableFrom α n b) :
    b.avail = (n + b.pos - b.start) % n ∧ b.avail ≤ n - 1 :=
  ⟨(BufInv_of_reachable hn h).avail_mod, (BufInv_of_reachable hn h).avail_le⟩

/-- Witness for C3 at the concrete reachable state reached by pushing 7
into a fresh buffer of capacity 3. -/
theorem avail_invariant_reachable_witness :
    ({ start := 0, pos := 1, buffer := [some 7, none, none], size := 3,
       avail := 1, evictRegistered := false } : CircularBuffer Nat).avail =
        (3 + ({ start := 0, pos := 1, buffer := [some 7, none, none], size := 3,
                avail := 1, evictRegistered := false } : CircularBuffer Nat).pos -
             ({ start := 0, pos := 1, buffer := [some 7, none, none], size := 3,
                avail := 1, evictRegistered := false } : CircularBuffer Nat).start) % 3 :=
  (avail_invariant_reachable (by decide : (0:Nat) < 3)
    (@ReachableFrom.push Nat 3 (NewCircularBuffer Nat 3) 7
      { st := { start := 0, pos := 1, buffer := [some 7, none, none],
                size := 3, avail := 1, evictRegistered := false },
        evicted := none, callbackArg := none }
      ReachableFrom.init rfl)).1

/-- C7: in every reachable state of a buffer with capacity `n > 0` the
internal fatal branches are dead code: `NBPush` never returns a runtime
panic (in particular the channel send of its `select` never hits the
`default` panic branch), and `Get` and `Pop` never reach their
empty-buffer panics -- each call either blocks on the channel receive or
returns normally. -/
theorem fatal_branches_unreachable {α : Type u} {n : Nat} (hn : 0 < n)
    {b : CircularBuffer α} (h : ReachableFrom α n b) :
    (∀ (v : α) (e : String), NBPush b v ≠ .error e) ∧
    (∀ m : String, Get b ≠ .panicked m) ∧
    (∀ m : String, Pop b ≠ .panicked m) := by
  have hb := BufInv_of_reachable hn h
  refine ⟨?_, ?_, ?_⟩
  · intro v e hcontra
    obtain ⟨q, heq, _⟩ := NBPush_ok_of_inv hn hb v
    rw [heq] at hcontra
    cases hcontra
  · intro m hcontra
    by_cases h0 : b.avail = 0
    · rw [Get_blocked_of_avail_zero h0] at hcontra
      cases hcontra
    · obtain ⟨b1, v, heq, _⟩ := Get_ok_of_inv hn hb h0
      rw [heq] at hcontra
      cases hcontra
  · intro m hcontra
    by_cases h0 : b.avail = 0
    · rw [Pop_blocked_of_avail_zero h0] at hcontra
      cases hcontra
    · obtain ⟨b1, v, heq, _⟩ := Pop_ok_of_inv hn hb h0
      rw [heq] at hcontra
      cases hcontra

/-- Witness for C7 on the fresh capacity-2 buffer. -/
theorem fatal_branches_unreachable_witness :
    NBPush (NewCircularBuffer Nat 2) 5 ≠
        .error "Sending to avail channel must never block" ∧
    Get (NewCircularBuffer Nat 2) ≠ .panicked "Trying to get from empty buffer" ∧
    Pop (NewCircularBuffer Nat 2) ≠ .panicked "Cant pop from empty buffer" := by
  have h := fatal_branches_unreachable (by decide : (0:Nat) < 2)
    (@ReachableFrom.init Nat 2)
  exact ⟨h.1 5 _, h.2.1 _, h.2.2 _⟩

/-- C9: in every reachable state of a buffer with capacity `n > 0` both
cursors are strictly below `size` and the backing array has exactly `size`
slots, so the accesses `buffer[pos]`, `buffer[start]` and
`buffer[(size+pos-1) % size]` of the three operations stay in bounds. -/
theorem cursors_in_bounds {α : Type u} {n : Nat} (hn : 0 < n)
    {b : CircularBuffer α} (h : ReachableFrom α n b) :
    b.start < b.size ∧ b.pos < b.size ∧ b.buffer.length = b.size := by
  have hb := BufInv_of_reachable hn h
  rw [hb.size_eq]
  exact ⟨hb.start_lt, hb.pos_lt, hb.buffer_len⟩

/-- Witness for C9 at the concrete reachable state reached by pushing 4
into a fresh buffer of capacity 2. -/
theorem cursors_in_bounds_witness :
    ({ start := 0, pos := 1, buffer := [some 4, none], size := 2,
       avail := 1, evictRegistered := false } : CircularBuffer Nat).start <
      ({ start := 0, pos := 1, buffer := [some 4, none], size := 2,
         avail := 1, evictRegistered := false } : CircularBuffer Nat).size ∧
    ({ start := 0, pos := 1, buffer := [some 4, none], size := 2,
       avail := 1, evictRegistered := false } : CircularBuffer Nat).pos <
      ({ start := 0, pos := 1, buffer := [some 4, none], size := 2,
         avail := 1, evictRegistered := false } : CircularBuffer Nat).size ∧
    ({ start := 0, pos := 1, buffer := [some 4, none], size := 2,
       avail := 1, evictRegistered := false } : CircularBuffer Nat).buffer.length =
      ({ start := 0, pos := 1, buffer := [some 4, none], size := 2,
         avail := 1, evictRegistered := false } : CircularBuffer Nat).size :=
  cursors_in_bounds (by decide : (0:Nat) < 2)
    (@ReachableFrom.push Nat 2 (NewCircularBuffer Nat 2) 4
      { st := { start := 0, pos := 1, buffer := [some 4, none],
                size := 2, avail := 1, evictRegistered := false },
        evicted := none, callbackArg := none }
      ReachableFrom.init rfl)

/-- C10: `Get` leaves the backing array untouched -- the slot it reads is
not cleared and still holds the returned value afterwards; only `start`
and the channel occupancy change, while `pos`, `size`, the registration
and every storage slot stay as they were. -/
theorem Get_frame {α : Type u} {b b1 : CircularBuffer α} {v : Option α}
    (h : Get b = .ok b1 v) :
    b1.buffer = b.buffer ∧ b1.pos = b.pos ∧ b1.size = b.size ∧
    b1.evictRegistered = b.evictRegistered ∧
    b1.start = (b.start + 1) % b.size ∧ b1.avail = b.avail - 1 ∧
    b.buffer[b.start]? = some v ∧ b1.buffer[b.start]? = some v := by
  obtain ⟨s, p, L, sz, a, reg⟩ := b
  unfold Get at h
  simp only at h
  split at h
  · cases h
  · split at h
    · cases h
    · split at h
      · rename_i hs
        injection h with h1 h2
        subst h1
        refine ⟨rfl, rfl, rfl, rfl, rfl, rfl, ?_, ?_⟩ <;>
          · simp only
            rw [List.getElem?_eq_getElem hs, ← h2, List.get_eq_getElem]
      · cases h

/-- Witness for C10: `Get` on a capacity-2 buffer holding the value 9. -/
theorem Get_frame_witness :
    ({ start := 1, pos := 1, buffer := [some 9, none], size := 2,
       avail := 0, evictRegistered := false } : CircularBuffer Nat).buffer =
      ({ start := 0, pos := 1, buffer := [some 9, none], size := 2,
         avail := 1, evictRegistered := false } : CircularBuffer Nat).buffer ∧
    (1 : Nat) = 1 ∧ (2 : Nat) = 2 ∧ (false = false) ∧
    (1 : Nat) = (0 + 1) % 2 ∧ (0 : Nat) = 1 - 1 ∧
    ([some 9, none] : List (Option Nat))[(0 : Nat)]? = some (some 9) ∧
    ([some 9, none] : List (Option Nat))[(0 : Nat)]? = some (some 9) :=
  @Get_frame Nat
    { start := 0, pos := 1, buffer := [some 9, none], size := 2,
      avail := 1, evictRegistered := false }
    { start := 1, pos := 1, buffer := [some 9, none], size := 2,
      avail := 0, evictRegistered := false }
    (some 9) rfl

/-- The live window of a buffer state: `q` lists the readable elements
oldest first, `q[i]` living in slot `(start + i) % n`.  Slots outside the
window are unconstrained. -/
structure WindowInv (n : Nat) (b : CircularBuffer α) (q : List α) : Prop where
  size_eq : b.size = n
  buffer_len : b.buffer.length = n
  start_lt : b.start < n
  q_len : q.length ≤ n - 1
  avail_eq : b.avail = q.length
  pos_eq : b.pos = (b.start + q.length) % n
  slot : ∀ i, i < q.length → b.buffer[(b.start + i) % n]? = some (q[i]?)

/-- Adding a fixed offset and reducing mod `n` is injective below `n`. -/
lemma add_mod_inj {n s i j : Nat} (hi : i < n) (hj : j < n)
    (h : (s + i) % n = (s + j) % n) : i = j := by
  have h2 : i ≡ j [MOD n] := Nat.ModEq.add_left_cancel' s h
  have h3 : i % n = j % n := h2
  rwa [Nat.mod_eq_of_lt hi, Nat.mod_eq_of_lt hj] at h3


/-- One `NBPush` seen through the window abstraction: with room left the
new value joins the window at the back and nothing is evicted; on a full
window the oldest element is evicted (and handed to the callback exactly
when one is registered) and the remainder of the window shifts. -/
lemma NBPush_window {α : Type u} {n : Nat} (hn : 0 < n) {b : CircularBuffer α}
    {q : List α} (hw : WindowInv n b q) (v : α) :
    ∃ p : PushOut α, NBPush b v = .ok p ∧
      p.st.evictRegistered = b.evictRegistered ∧
      p.callbackArg = (if b.evictRegistered then p.evicted else none) ∧
      ((q.length < n - 1 ∧ p.evicted = none ∧ WindowInv n p.st (q ++ [v])) ∨
       (q.length = n - 1 ∧
         (∃ hd tl, q ++ [v] = hd :: tl ∧
           p.evicted = some (some hd) ∧ WindowInv n p.st tl))) := by
  obtain ⟨s, pp, L, sz, a, reg⟩ := b
  obtain ⟨hsz, hlen, hs, hq, ha, hpos, hslot⟩ := hw
  simp only at hsz hlen hs ha hpos hslot
  subst sz
  subst hpos
  have hqlt : q.length < n := by omega
  have hppos : (s + q.length) % n < n := Nat.mod_lt _ hn
  have hstep1 : ((s + q.length) % n + 1) % n = (s + (q.length + 1)) % n := by
    rw [Nat.mod_add_mod, Nat.add_assoc]
  have hself : (s : Nat) = (s + 0) % n := by
    rw [Nat.add_zero, Nat.mod_eq_of_lt hs]
  -- the transient buffer just after the write at pos
  have hT : ∀ i, i < q.length + 1 →
      (L.set ((s + q.length) % n) (some v))[(s + i) % n]? = some ((q ++ [v])[i]?) := by
    intro i hi
    rcases Nat.lt_or_ge i q.length with hilt | hige
    · have hne : (s + q.length) % n ≠ (s + i) % n := fun hc =>
        absurd (add_mod_inj hqlt (by omega) hc) (by omega)
      rw [List.getElem?_set_ne hne, hslot i hilt, List.getElem?_append_left hilt]
    · have hieq : i = q.length := by omega
      subst hieq
      rw [List.getElem?_set_self (by omega), List.getElem?_concat_length]
  unfold NBPush
  simp only
  rw [dif_pos (by omega : (s + q.length) % n < L.length)]
  by_cases hcond : ((s + q.length) % n + 1) % n = s
  · -- eviction branch: the window was full
    have hfull : q.length = n - 1 := by
      by_contra hne
      rw [hstep1] at hcond
      have := add_mod_inj (by omega : q.length + 1 < n) (by omega : 0 < n)
        (hcond.trans hself)
      omega
    obtain ⟨hd, tl, hqv⟩ : ∃ hd tl, q ++ [v] = hd :: tl := by
      cases q with
      | nil => exact ⟨v, [], rfl⟩
      | cons x xs => exact ⟨x, xs ++ [v], rfl⟩
    have htl : tl.length = n - 1 := by
      have hlq := congrArg List.length hqv
      simp at hlq
      omega
    have hhd : (L.set ((s + q.length) % n) (some v))[s]? = some (some hd) := by
      have h0 := hT 0 (by omega)
      rw [Nat.add_zero, Nat.mod_eq_of_lt hs, hqv] at h0
      simpa using h0
    rw [if_pos hcond, dif_pos (by simp only [List.length_set]; omega :
      s < (L.set ((s + q.length) % n) (some v)).length)]
    refine ⟨_, rfl, rfl, rfl, Or.inr ⟨hfull, hd, tl, hqv, ?_, ?_⟩⟩
    · -- the evicted value is the head of the extended window
      simp only
      have hb : s < (L.set ((s + q.length) % n) (some v)).length := by
        simp only [List.length_set]; omega
      rw [List.getElem?_eq_getElem hb] at hhd
      injection hhd with h3
      rw [List.get_eq_getElem, h3]
    · -- window invariant for the shifted window
      refine ⟨rfl, by simp only [List.length_set]; omega, Nat.mod_lt _ hn,
        by omega, by simp only; omega, ?_, ?_⟩
      · -- pos field of the new state
        simp only
        rw [hcond, htl]
        rcases succ_mod_cases n s hs with ⟨h1, h2⟩ | ⟨h1, h2⟩ <;> rw [h1]
        · have he : s + 1 + (n - 1) = s + n := by omega
          rw [he, Nat.add_mod_right, Nat.mod_eq_of_lt hs]
        · have he : (0 : Nat) + (n - 1) = n - 1 := by omega
          rw [he, Nat.mod_eq_of_lt (by omega : n - 1 < n)]
          omega
      · -- slots of the shifted window
        intro i hi
        simp only
        have hstep2 : ((s + 1) % n + i) % n = (s + (1 + i)) % n := by
          rw [Nat.mod_add_mod, Nat.add_assoc]
        rw [hstep2]
        have hi2 : 1 + i < n := by omega
        have hne2 : s ≠ (s + (1 + i)) % n := fun hc =>
          absurd (add_mod_inj (by omega : (0:Nat) < n) hi2
            (hself ▸ hc : (s + 0) % n = (s + (1 + i)) % n)) (by omega)
        rw [List.getElem?_set_ne hne2]
        have hTi := hT (1 + i) (by omega)
        rw [hqv] at hTi
        have hcons : (hd :: tl)[1 + i]? = tl[i]? := by
          have h1i : 1 + i = i + 1 := by omega
          rw [h1i]
          simp
        rw [hcons] at hTi
        exact hTi
  · -- no eviction: room left in the window
    have hlt2 : q.length < n - 1 := by
      by_contra hge
      have hfull : q.length = n - 1 := by omega
      apply hcond
      rw [hstep1, hfull]
      have he : s + (n - 1 + 1) = s + n := by omega
      rw [he, Nat.add_mod_right, Nat.mod_eq_of_lt hs]
    rw [if_neg hcond, if_pos (by omega : a < n)]
    refine ⟨_, rfl, rfl, by cases reg <;> rfl, Or.inl ⟨hlt2, rfl, ?_⟩⟩
    refine ⟨rfl, by simp only [List.length_set]; omega, hs,
      by simp only [List.length_append, List.length_singleton]; omega,
      by simp only [List.length_append, List.length_singleton]; omega, ?_, ?_⟩
    · simp only [List.length_append, List.length_singleton]
      rw [hstep1]
    · intro i hi
      simp only [List.length_append, List.length_singleton] at hi
      exact hT i (by omega)


/-- Pushing a list `vs` onto a state with window `q` evicts exactly the
first `q.length + vs.length - (n-1)` elements of `q ++ vs`, oldest first;
the rest is the new window.  The callback receives exactly the evicted
values when registered, and nothing otherwise. -/
lemma pushAll_window {α : Type u} {n : Nat} (hn : 0 < n) :
    ∀ (vs : List α) {b : CircularBuffer α} {q : List α}, WindowInv n b q →
    ∃ out : PushAllOut α, pushAll b vs = .ok out ∧
      out.st.evictRegistered = b.evictRegistered ∧
      WindowInv n out.st ((q ++ vs).drop (q.length + vs.length - (n - 1))) ∧
      out.evictLog = ((q ++ vs).take (q.length + vs.length - (n - 1))).map some ∧
      out.callbackLog = (if b.evictRegistered then out.evictLog else []) := by
  intro vs
  induction vs with
  | nil =>
    intro b q hw
    have he : q.length + ([] : List α).length - (n - 1) = 0 := by
      have := hw.q_len
      simp only [List.length_nil]
      omega
    refine ⟨{ st := b, evictLog := [], callbackLog := [] }, rfl, rfl, ?_, ?_, ?_⟩
    · rw [he, List.drop_zero, List.append_nil]
      exact hw
    · rw [he, List.take_zero, List.map_nil]
    · simp only
      cases b.evictRegistered <;> rfl
  | cons v vs ih =>
    intro b q hw
    obtain ⟨p, hpush, hreg, hcb, hcase⟩ := NBPush_window hn hw v
    have hql := hw.q_len
    rcases hcase with ⟨hlt, hev, hw2⟩ | ⟨hfull, hd, tl, hqv, hev, hw2⟩
    · -- no eviction on this push
      obtain ⟨out, hrec, hreg2, hw3, hlog, hclog⟩ := ih hw2
      have he : (q ++ [v]).length + vs.length - (n - 1) =
          q.length + (v :: vs).length - (n - 1) := by
        simp only [List.length_append, List.length_cons, List.length_nil,
          List.length_cons]
        omega
      refine ⟨{ st := out.st, evictLog := p.evicted.toList ++ out.evictLog,
                callbackLog := p.callbackArg.toList ++ out.callbackLog },
        ?_, hreg2.trans hreg, ?_, ?_, ?_⟩
      · unfold pushAll
        rw [hpush]
        dsimp only
        rw [hrec]
      · rw [he, List.append_assoc, List.singleton_append] at hw3
        exact hw3
      · simp only [hev, Option.toList_none, List.nil_append]
        rw [hlog, he, List.append_assoc, List.singleton_append]
      · simp only [hcb, hev]
        rw [hclog, hreg]
        cases b.evictRegistered <;> simp
    · -- this push evicts the head of q ++ [v]
      obtain ⟨out, hrec, hreg2, hw3, hlog, hclog⟩ := ih hw2
      have htl : tl.length = n - 1 := by
        have hlq := congrArg List.length hqv
        simp only [List.length_append, List.length_cons, List.length_nil] at hlq
        omega
      have hsplit : q ++ v :: vs = hd :: (tl ++ vs) := by
        rw [← List.singleton_append, ← List.append_assoc, hqv, List.cons_append]
      have hetot : q.length + (v :: vs).length - (n - 1) = vs.length + 1 := by
        simp only [List.length_cons]
        omega
      have herec : tl.length + vs.length - (n - 1) = vs.length := by omega
      refine ⟨{ st := out.st, evictLog := p.evicted.toList ++ out.evictLog,
                callbackLog := p.callbackArg.toList ++ out.callbackLog },
        ?_, hreg2.trans hreg, ?_, ?_, ?_⟩
      · unfold pushAll
        rw [hpush]
        dsimp only
        rw [hrec]
      · simp only
        rw [hsplit, hetot, List.drop_succ_cons]
        rw [herec] at hw3
        exact hw3
      · simp only [hev, Option.toList_some, List.singleton_append]
        rw [hlog, hsplit, hetot, List.take_succ_cons, List.map_cons, herec]
      · simp only [hcb, hev]
        rw [hclog, hreg]
        cases b.evictRegistered <;> simp

/-- The fresh buffer has the empty window. -/
lemma WindowInv_new (α : Type u) (n : Nat) (hn : 0 < n) :
    WindowInv n (NewCircularBuffer α n) [] :=
  ⟨rfl, List.length_replicate n none, hn, by simp, rfl,
    by simp [NewCircularBuffer], fun i hi => absurd hi (by simp)⟩

/-- Registering the callback does not change the window. -/
lemma WindowInv_registerEvict {n : Nat} {b : CircularBuffer α} {q : List α}
    (hw : WindowInv n b q) : WindowInv n (registerEvict b) q :=
  ⟨hw.size_eq, hw.buffer_len, hw.start_lt, hw.q_len, hw.avail_eq,
    hw.pos_eq, hw.slot⟩

/-- `Get` on a nonempty window returns the oldest element and shrinks the
window at the front. -/
lemma Get_window {α : Type u} {n : Nat} (hn : 0 < n) {b : CircularBuffer α}
    {x : α} {q : List α} (hw : WindowInv n b (x :: q)) :
    ∃ b1, Get b = .ok b1 (some x) ∧ WindowInv n b1 q ∧
      b1.evictRegistered = b.evictRegistered := by
  obtain ⟨s, pp, L, sz, a, reg⟩ := b
  obtain ⟨hsz, hlen, hs, hq, ha, hpos, hslot⟩ := hw
  simp only at hsz hlen hs hq ha hpos hslot
  subst sz
  subst hpos
  simp only [List.length_cons] at hq ha
  have hself : (s : Nat) = (s + 0) % n := by
    rw [Nat.add_zero, Nat.mod_eq_of_lt hs]
  have hne : s ≠ (s + (x :: q).length) % n := by
    intro hc
    have hc2 : (s + 0) % n = (s + (x :: q).length) % n := hself ▸ hc
    have := add_mod_inj (by omega : (0:Nat) < n)
      (by simp only [List.length_cons]; omega : (x :: q).length < n) hc2
    simp only [List.length_cons] at this
    omega
  have hb0 : s < L.length := by omega
  have hval : L.get ⟨s, hb0⟩ = some x := by
    have h0 := hslot 0 (by simp only [List.length_cons]; omega)
    rw [Nat.add_zero, Nat.mod_eq_of_lt hs] at h0
    simp only [List.getElem?_cons_zero] at h0
    rw [List.getElem?_eq_getElem hb0] at h0
    rw [List.get_eq_getElem]
    exact Option.some.inj h0
  refine ⟨{ start := (s + 1) % n, pos := (s + (x :: q).length) % n, buffer := L,
            size := n, avail := a - 1, evictRegistered := reg }, ?_, ?_, rfl⟩
  · unfold Get
    simp only
    rw [if_neg (by omega : ¬(a = 0)), if_neg hne, dif_pos hb0, hval]
  · refine ⟨rfl, hlen, Nat.mod_lt _ hn, by omega, by simp only; omega, ?_, ?_⟩
    · simp only [List.length_cons]
      rw [Nat.mod_add_mod]
      have he : s + 1 + q.length = s + (q.length + 1) := by omega
      rw [he]
    · intro i hi
      simp only
      rw [Nat.mod_add_mod]
      have he : s + 1 + i = s + (1 + i) := by omega
      rw [he]
      have hstep := hslot (1 + i) (by simp only [List.length_cons]; omega)
      have hidx : (1 + i) = i + 1 := by omega
      rw [hidx] at hstep
      simp only [List.getElem?_cons_succ] at hstep
      rw [hidx]
      exact hstep

/-- Iterating `Get` over the whole window returns it oldest-first and
leaves the buffer empty. -/
lemma getN_window {α : Type u} {n : Nat} (hn : 0 < n) :
    ∀ (q : List α) {b : CircularBuffer α}, WindowInv n b q →
    ∃ b2, getN b q.length = some (b2, q.map some) ∧ WindowInv n b2 [] ∧
      b2.avail = 0 ∧ b2.evictRegistered = b.evictRegistered := by
  intro q
  induction q with
  | nil =>
    intro b hw
    exact ⟨b, rfl, hw, by simpa using hw.avail_eq, rfl⟩
  | cons x q ih =>
    intro b hw
    obtain ⟨b1, hget, hw1, hreg1⟩ := Get_window hn hw
    obtain ⟨b2, hrec, hw2, hav2, hreg2⟩ := ih hw1
    refine ⟨b2, ?_, hw2, hav2, hreg2.trans hreg1⟩
    simp only [List.length_cons, List.map_cons]
    unfold getN
    rw [hget]
    dsimp only
    rw [hrec]

/-- `Pop` on a nonempty window returns the newest element, clears its
slot, and shrinks the window at the back. -/
lemma Pop_window {α : Type u} {n : Nat} (hn : 0 < n) {b : CircularBuffer α}
    {x : α} {q : List α} (hw : WindowInv n b (q ++ [x])) :
    ∃ b1, Pop b = .ok b1 (some x) ∧ WindowInv n b1 q ∧
      b1.evictRegistered = b.evictRegistered := by
  obtain ⟨s, pp, L, sz, a, reg⟩ := b
  obtain ⟨hsz, hlen, hs, hq, ha, hpos, hslot⟩ := hw
  simp only at hsz hlen hs hq ha hpos hslot
  subst sz
  subst hpos
  simp only [List.length_append, List.length_cons, List.length_nil] at hq ha
  have hself : (s : Nat) = (s + 0) % n := by
    rw [Nat.add_zero, Nat.mod_eq_of_lt hs]
  have hne : s ≠ (s + (q ++ [x]).length) % n := by
    intro hc
    have hc2 : (s + 0) % n = (s + (q ++ [x]).length) % n := hself ▸ hc
    have := add_mod_inj (by omega : (0:Nat) < n)
      (by simp only [List.length_append, List.length_cons, List.length_nil]
          omega : (q ++ [x]).length < n) hc2
    simp only [List.length_append, List.length_cons, List.length_nil] at this
    omega
  have hppos_eq : (n + (s + (q ++ [x]).length) % n - 1) % n = (s + q.length) % n := by
    have h1 : n + (s + (q ++ [x]).length) % n - 1 =
        (s + (q ++ [x]).length) % n + (n - 1) := by omega
    rw [h1, Nat.mod_add_mod]
    have h2 : s + (q ++ [x]).length + (n - 1) = s + q.length + n := by
      simp only [List.length_append, List.length_cons, List.length_nil]
      omega
    rw [h2, Nat.add_mod_right]
  have hbound : (n + (s + (q ++ [x]).length) % n - 1) % n < L.length := by
    have := Nat.mod_lt (n + (s + (q ++ [x]).length) % n - 1) hn
    omega
  have hval : L.get ⟨(n + (s + (q ++ [x]).length) % n - 1) % n, hbound⟩ = some x := by
    have hsl := hslot q.length
      (by simp only [List.length_append, List.length_cons, List.length_nil]; omega)
    rw [List.getElem?_concat_length] at hsl
    rw [List.get_eq_getElem]
    have h2 : L[(n + (s + (q ++ [x]).length) % n - 1) % n]? = some (some x) := by
      rw [hppos_eq]
      exact hsl
    rw [List.getElem?_eq_getElem hbound] at h2
    exact Option.some.inj h2
  refine ⟨{ start := s, pos := (n + (s + (q ++ [x]).length) % n - 1) % n,
            buffer := L.set ((n + (s + (q ++ [x]).length) % n - 1) % n) none,
            size := n, avail := a - 1, evictRegistered := reg }, ?_, ?_, rfl⟩
  · unfold Pop
    simp only
    rw [if_neg (by omega : ¬(a = 0)), if_neg hne, dif_pos hbound, hval]
  · refine ⟨rfl, by simp only [List.length_set]; omega, hs, by omega,
      by simp only; omega, by simp only; rw [hppos_eq], ?_⟩
    intro i hi
    simp only
    have hne2 : (n + (s + (q ++ [x]).length) % n - 1) % n ≠ (s + i) % n := by
      rw [hppos_eq]
      intro hc
      have := add_mod_inj (by omega : q.length < n) (by omega : i < n) hc
      omega
    rw [List.getElem?_set_ne hne2]
    have hsl := hslot i
      (by simp only [List.length_append, List.length_cons, List.length_nil]; omega)
    rw [List.getElem?_append_left hi] at hsl
    exact hsl

/-- Iterating `Pop` over the whole window returns it newest-first and
leaves the buffer empty. -/
lemma popN_window {α : Type u} {n : Nat} (hn : 0 < n) :
    ∀ (k : Nat) (q : List α) {b : CircularBuffer α}, q.length = k →
    WindowInv n b q →
    ∃ b2, popN b k = some (b2, (q.reverse).map some) ∧ WindowInv n b2 [] ∧
      b2.avail = 0 ∧ b2.evictRegistered = b.evictRegistered := by
  intro k
  induction k with
  | zero =>
    intro q b hlen hw
    have hq : q = [] := List.eq_nil_of_length_eq_zero hlen
    subst hq
    exact ⟨b, rfl, hw, by simpa using hw.avail_eq, rfl⟩
  | succ k ih =>
    intro q b hlen hw
    rcases List.eq_nil_or_concat q with rfl | ⟨ws, x, rfl⟩
    · simp at hlen
    · rw [List.concat_eq_append] at hw hlen ⊢
      obtain ⟨b1, hpop, hw1, hreg1⟩ := Pop_window hn hw
      have hwlen : ws.length = k := by
        simp only [List.length_append, List.length_cons, List.length_nil] at hlen
        omega
      obtain ⟨b2, hrec, hw2, hav2, hreg2⟩ := ih ws hwlen hw1
      refine ⟨b2, ?_, hw2, hav2, hreg2.trans hreg1⟩
      have hrev : (ws ++ [x]).reverse.map some = some x :: ws.reverse.map some := by
        simp
      rw [hrev]
      unfold popN
      rw [hpop]
      dsimp only
      rw [hrec]

/-- Bookkeeping along any operation sequence: the run never panics, the
invariant is preserved, and the channel occupancy plus the successful
removals plus the evictions equals the initial occupancy plus the pushes. -/
lemma run_counts {α : Type u} {n : Nat} (hn : 0 < n) :
    ∀ (ops : List (Op α)) {b : CircularBuffer α}, BufInv n b →
    ∃ out : RunOut α, run b ops = .ok out ∧ BufInv n out.st ∧
      out.st.avail + out.removals + out.evictions = b.avail + out.pushes := by
  intro ops
  induction ops with
  | nil =>
    intro b hb
    exact ⟨{ st := b, pushes := 0, removals := 0, evictions := 0 }, rfl, hb,
      by dsimp only⟩
  | cons op ops ih =>
    intro b hb
    cases op with
    | push v =>
      obtain ⟨q, heq, hq, _hreg, _hcb, hcase⟩ := NBPush_ok_of_inv hn hb v
      obtain ⟨out, hrec, hout, hcnt⟩ := ih hq
      refine ⟨{ st := out.st, pushes := out.pushes + 1, removals := out.removals,
                evictions := out.evictions + (if q.evicted.isSome then 1 else 0) },
        ?_, hout, ?_⟩
      · unfold run
        rw [heq]
        dsimp only
        rw [hrec]
      · rcases hcase with ⟨hsome, hav⟩ | ⟨hnone, hav⟩
        · rw [hsome]
          simp only [if_true]
          omega
        · rw [hnone]
          simp only [Option.isSome_none, Bool.false_eq_true, if_false]
          omega
    | get =>
      by_cases h0 : b.avail = 0
      · obtain ⟨out, hrec, hout, hcnt⟩ := ih hb
        refine ⟨out, ?_, hout, by omega⟩
        unfold run
        rw [Get_blocked_of_avail_zero h0]
        exact hrec
      · obtain ⟨b1, v, heq, hb1, hav, _⟩ := Get_ok_of_inv hn hb h0
        obtain ⟨out, hrec, hout, hcnt⟩ := ih hb1
        refine ⟨{ out with removals := out.removals + 1 }, ?_, hout, ?_⟩
        · unfold run
          rw [heq]
          dsimp only
          rw [hrec]
        · dsimp only
          omega
    | pop =>
      by_cases h0 : b.avail = 0
      · obtain ⟨out, hrec, hout, hcnt⟩ := ih hb
        refine ⟨out, ?_, hout, by omega⟩
        unfold run
        rw [Pop_blocked_of_avail_zero h0]
        exact hrec
      · obtain ⟨b1, v, heq, hb1, hav, _⟩ := Pop_ok_of_inv hn hb h0
        obtain ⟨out, hrec, hout, hcnt⟩ := ih hb1
        refine ⟨{ out with removals := out.removals + 1 }, ?_, hout, ?_⟩
        · unfold run
          rw [heq]
          dsimp only
          rw [hrec]
        · dsimp only
          omega

/-- C5: pushing at most `n-1` values into a fresh capacity-`n` buffer
causes no eviction, and the same number of `Get` calls then returns
exactly the pushed values in push order (FIFO); afterwards the buffer
reports empty. -/
theorem fifo_get_order (α : Type u) (n : Nat) (hn : 0 < n) (vs : List α)
    (hlen : vs.length ≤ n - 1) :
    ∃ (st1 : PushAllOut α) (b2 : CircularBuffer α),
      pushAll (NewCircularBuffer α n) vs = .ok st1 ∧
      st1.evictLog = [] ∧
      getN st1.st vs.length = some (b2, vs.map some) ∧
      b2.Empty = true := by
  obtain ⟨out, hpush, _, hw, hlog, _⟩ := pushAll_window hn vs (WindowInv_new α n hn)
  have he : ([] : List α).length + vs.length - (n - 1) = 0 := by
    simp only [List.length_nil]
    omega
  rw [he, List.take_zero, List.map_nil] at hlog
  rw [he, List.drop_zero, List.nil_append] at hw
  obtain ⟨b2, hget, _, hav, _⟩ := getN_window hn vs hw
  exact ⟨out, b2, hpush, hlog, hget, by simp [CircularBuffer.Empty, hav]⟩

/-- Witness for C5: capacity 3, pushes 10 then 20, two FIFO gets. -/
theorem fifo_get_order_witness :
    ∃ (st1 : PushAllOut Nat) (b2 : CircularBuffer Nat),
      pushAll (NewCircularBuffer Nat 3) [10, 20] = .ok st1 ∧
      st1.evictLog = [] ∧
      getN st1.st 2 = some (b2, [some 10, some 20]) ∧
      b2.Empty = true :=
  fifo_get_order Nat 3 (by decide) [10, 20] (by decide)

/-- C6: pushing at most `n-1` values into a fresh capacity-`n` buffer and
then calling `Pop` the same number of times returns the pushed values in
exact reverse push order (LIFO), clearing each slot; afterwards the buffer
reports empty. -/
theorem lifo_pop_order (α : Type u) (n : Nat) (hn : 0 < n) (vs : List α)
    (hlen : vs.length ≤ n - 1) :
    ∃ (st1 : PushAllOut α) (b2 : CircularBuffer α),
      pushAll (NewCircularBuffer α n) vs = .ok st1 ∧
      st1.evictLog = [] ∧
      popN st1.st vs.length = some (b2, (vs.reverse).map some) ∧
      b2.Empty = true := by
  obtain ⟨out, hpush, _, hw, hlog, _⟩ := pushAll_window hn vs (WindowInv_new α n hn)
  have he : ([] : List α).length + vs.length - (n - 1) = 0 := by
    simp only [List.length_nil]
    omega
  rw [he, List.take_zero, List.map_nil] at hlog
  rw [he, List.drop_zero, List.nil_append] at hw
  obtain ⟨b2, hpop, _, hav, _⟩ := popN_window hn vs.length vs rfl hw
  exact ⟨out, b2, hpush, hlog, hpop, by simp [CircularBuffer.Empty, hav]⟩

/-- Witness for C6: capacity 3, pushes 10 then 20, two LIFO pops. -/
theorem lifo_pop_order_witness :
    ∃ (st1 : PushAllOut Nat) (b2 : CircularBuffer Nat),
      pushAll (NewCircularBuffer Nat 3) [10, 20] = .ok st1 ∧
      st1.evictLog = [] ∧
      popN st1.st 2 = some (b2, [some 20, some 10]) ∧
      b2.Empty = true :=
  lifo_pop_order Nat 3 (by decide) [10, 20] (by decide)

/-- C4 (amended): pushing `k ≥ n` values into a fresh capacity-`n` buffer
causes exactly `k - (n-1)` evictions, each evicting the oldest
not-yet-evicted element: the eviction sequence equals the first `k - (n-1)`
pushed values in push order.  The evicted values are delivered to the
`Evict` callback when one is registered (here it is registered right after
construction); with no callback they are discarded, since `NBPush` in
`circularbuffer.go` returns nothing. -/
theorem eviction_count_and_order (α : Type u) (n : Nat) (hn : 0 < n)
    (vs : List α) (hk : n ≤ vs.length) :
    ∃ out : PushAllOut α,
      pushAll (registerEvict (NewCircularBuffer α n)) vs = .ok out ∧
      out.evictLog.length = vs.length - (n - 1) ∧
      out.evictLog = (vs.take (vs.length - (n - 1))).map some ∧
      out.callbackLog = out.evictLog := by
  obtain ⟨out, hpush, _, _, hlog, hclog⟩ :=
    pushAll_window hn vs (WindowInv_registerEvict (WindowInv_new α n hn))
  have he : ([] : List α).length + vs.length - (n - 1) = vs.length - (n - 1) := by
    simp only [List.length_nil]
    omega
  rw [he, List.nil_append] at hlog
  refine ⟨out, hpush, ?_, hlog, ?_⟩
  · rw [hlog]
    simp only [List.length_map, List.length_take]
    omega
  · rw [hclog]
    simp [registerEvict]

/-- Witness for C4: capacity 2, three pushes, two evictions (0 then 1)
delivered to the callback in push order. -/
theorem eviction_count_and_order_witness :
    ∃ out : PushAllOut Nat,
      pushAll (registerEvict (NewCircularBuffer Nat 2)) [0, 1, 2] = .ok out ∧
      out.evictLog.length = 2 ∧
      out.evictLog = [some 0, some 1] ∧
      out.callbackLog = out.evictLog :=
  eviction_count_and_order Nat 2 (by decide) [0, 1, 2] (by decide)

/-- Counterexample for C4 as stated: on a fresh capacity-2 buffer (no
callback registered) the second push evicts the oldest value 0, yet the
eviction is delivered neither by callback (`callbackLog = []`) nor by
return value (`NBPush` in `circularbuffer.go` has no return value). -/
theorem eviction_without_callback_counterexample :
    pushAll (NewCircularBuffer Nat 2) [0, 1] =
      .ok { st := { start := 1, pos := 0, buffer := [none, some 1], size := 2,
                    avail := 1, evictRegistered := false },
            evictLog := [some 0], callbackLog := [] } := by
  rfl

/-- C1 evaluated at the failing input: on a full capacity-2 buffer the
eviction branch runs (`evicted = some (some 0)`); with `Evict` nil the
callback is not invoked (`callbackArg = none`) and -- `NBPush` having no
return value in `circularbuffer.go` -- the evicted value 0 reaches the
caller in no way; with `Evict` set the callback receives exactly the
evicted value. -/
theorem nbpush_delivery_at_full_buffer :
    (NBPush ({ start := 0, pos := 1, buffer := [some 0, none], size := 2,
               avail := 1, evictRegistered := false } : CircularBuffer Nat) 1 =
      .ok { st := { start := 1, pos := 0, buffer := [none, some 1], size := 2,
                    avail := 1, evictRegistered := false },
            evicted := some (some 0), callbackArg := none }) ∧
    (NBPush ({ start := 0, pos := 1, buffer := [some 0, none], size := 2,
               avail := 1, evictRegistered := true } : CircularBuffer Nat) 1 =
      .ok { st := { start := 1, pos := 0, buffer := [none, some 1], size := 2,
                    avail := 1, evictRegistered := true },
            evicted := some (some 0), callbackArg := some (some 0) }) :=
  ⟨rfl, rfl⟩

/-- Counterexample for C2 as stated: `NewCircularBuffer 0` performs no
validation and returns an ordinary buffer value (empty storage, `size`
0); the failure only surfaces later, as the first push panics. -/
theorem new_zero_returns_buffer_counterexample :
    NewCircularBuffer Nat 0 =
      { start := 0, pos := 0, buffer := [], size := 0, avail := 0,
        evictRegistered := false } ∧
    isError (NBPush (NewCircularBuffer Nat 0) 5) = true :=
  ⟨rfl, rfl⟩

/-- C2 (amended): construction with capacity 0 succeeds and returns a
degenerate buffer with zero-length storage; every subsequent `NBPush`
on it hits the index-out-of-range runtime panic instead of an error at
construction time. -/
theorem new_zero_push_errors {α : Type u} (v : α) :
    (NewCircularBuffer α 0).size = 0 ∧ (NewCircularBuffer α 0).buffer = [] ∧
    isError (NBPush (NewCircularBuffer α 0) v) = true :=
  ⟨rfl, rfl, rfl⟩

/-- C8: after any operation sequence on a fresh capacity-`n` buffer the
run completes without panic and `Length()` equals the number of pushes
minus successful removals and evictions; it is never negative (it is a
natural number satisfying the additive identity) and never exceeds
`n - 1`. -/
theorem length_counts_operations (α : Type u) (n : Nat) (hn : 0 < n)
    (ops : List (Op α)) :
    ∃ out : RunOut α, run (NewCircularBuffer α n) ops = .ok out ∧
      out.st.Length + (out.removals + out.evictions) = out.pushes ∧
      out.st.Length = out.pushes - (out.removals + out.evictions) ∧
      out.st.Length ≤ n - 1 := by
  obtain ⟨out, heq, hout, hcnt⟩ := run_counts hn ops (BufInv_new α n hn)
  have hle := hout.avail_le
  simp only [NewCircularBuffer] at hcnt
  refine ⟨out, heq, ?_, ?_, ?_⟩ <;> simp only [CircularBuffer.Length] <;> omega

/-- Witness for C8: capacity 2, pushes of 5 and 6 (the second evicting 5)
followed by one successful `Get`. -/
theorem length_counts_operations_witness :
    ∃ out : RunOut Nat,
      run (NewCircularBuffer Nat 2) [.push 5, .push 6, .get] = .ok out ∧
      out.st.Length + (out.removals + out.evictions) = out.pushes ∧
      out.st.Length = out.pushes - (out.removals + out.evictions) ∧
      out.st.Length ≤ 2 - 1 :=
  length_counts_operations Nat 2 (by decide) [.push 5, .push 6, .get]
